import Mathlib

/-!
Verification development for the standoff-to-HTML renderer (so2html.py) of
the restoa-explorer repository.  Every definition below is a shallow
embedding of the corresponding Python function; Python machine integers are
modelled by Int/Nat, the float EPSILON by an exact rational (the sums of
ones and small epsilons computed here stay far from any float rounding
boundary, so the orderings coincide), fallible code by Option, and the
stdlib collaborators (unicodedata.normalize, random, colorsys) by explicit
function parameters bundled in the Ext structure.
-/

set_option maxRecDepth 4000

namespace SO2HTML

/-- The tag used to mark annotated spans (module constant TAG). -/
def TAG : String := "span"

/-- Vertical space between span boxes at different heights (constant VSPACE). -/
def VSPACE : ℤ := 2

/-- Text line height without annotations (constant BASE_LINE_HEIGHT). -/
def BASE_LINE_HEIGHT : ℤ := 24

/-- Span type to HTML tag mapping for formatting spans
(FORMATTING_TYPE_TAG_MAP), as an association list in source order. -/
def FORMATTING_TYPE_TAG_MAP : List (String × String) :=
  [("bold", "b"), ("italic", "i"), ("sup", "sup"), ("sub", "sub"), ("section", "section")]

/-- The effectively-zero height of formatting tags (constant EPSILON = 0.0001),
modelled as the exact rational. -/
def EPSILON : ℚ := 1 / 10000

/-- Association-list lookup modelling Python dict access / membership for
string-keyed dicts. -/
def lookupStr (k : String) : List (String × String) → Option String
  | [] => none
  | p :: rest => if p.1 = k then some p.2 else lookupStr k rest

/-- Python str.isspace on the ASCII whitespace characters (the labels the
renderer handles are code-point sequences; the ASCII set is what the claims
exercise). -/
def pyIsSpace (c : Char) : Bool :=
  c.toNat = 32 || c.toNat = 9 || c.toNat = 10 || c.toNat = 11 || c.toNat = 12 ||
    c.toNat = 13

/-- Membership in the character class [_a-zA-Z0-9-] kept by css_class_string's
re.sub, written over ASCII code points. -/
def isSafeChar (c : Char) : Bool :=
  (97 ≤ c.toNat && c.toNat ≤ 122) || (65 ≤ c.toNat && c.toNat ≤ 90) ||
    (48 ≤ c.toNat && c.toNat ≤ 57) || c.toNat = 95 || c.toNat = 45

/-- An ASCII digit, the test of str.isdigit on the characters reaching it
here. -/
def isDigitChar (c : Char) : Bool :=
  48 ≤ c.toNat && c.toNat ≤ 57

/-- The encode("ascii", "ignore") step: drop every non-ASCII code point. -/
def asciiIgnore (l : List Char) : List Char :=
  l.filter (fun c => decide (c.toNat < 128))

/-- The re.sub(r"[^_a-zA-Z0-9-]", "-", c) step: replace unsafe characters by
a dash. -/
def replaceUnsafe (l : List Char) : List Char :=
  l.map (fun c => if isSafeChar c then c else '-')

/-- The re.sub(r"--+", "-", c) step: every maximal run of dashes becomes a
single dash, i.e. a dash directly followed by another dash is dropped. -/
def collapseDashes : List Char → List Char
  | [] => []
  | [c] => [c]
  | a :: b :: rest =>
    if a = '-' && b = '-' then collapseDashes (b :: rest)
    else a :: collapseDashes (b :: rest)

/-- Helper for str.strip("-"): remove every trailing dash. -/
def dropTrailingDashes : List Char → List Char
  | [] => []
  | c :: rest =>
    let r := dropTrailingDashes rest
    if r.isEmpty && c = '-' then [] else c :: r

/-- The c.strip("-") step: remove leading and trailing dashes. -/
def stripDashes (l : List Char) : List Char :=
  dropTrailingDashes (l.dropWhile (fun c => c = '-'))

/-- A character matching [_a-zA-Z], the class of the identifier body's first
character in the sanity-check pattern. -/
def isIdentStartChar (c : Char) : Bool :=
  (97 ≤ c.toNat && c.toNat ≤ 122) || (65 ≤ c.toNat && c.toNat ≤ 90) || c.toNat = 95

/-- The sanity check re.match(r"^-?[_a-zA-Z]+[_a-zA-Z0-9-]*", c) as a Boolean
test: since the pattern is only start-anchored and the starred class accepts
anything that survives the earlier substitutions, a match succeeds exactly
when the string starts with an optional dash followed by one [_a-zA-Z]
character. -/
def matchesCssIdent : List Char → Bool
  | [] => false
  | c :: rest =>
    if c = '-' then
      match rest with
      | [] => false
      | d :: _ => isIdentStartChar d
    else isIdentStartChar c

/-- The leading-digit fix: if c and c[0].isdigit(), prepend an underscore. -/
def digitUnderscore (l : List Char) : List Char :=
  match l with
  | [] => []
  | c :: _ => if isDigitChar c then '_' :: l else l

/-- The normalization pipeline of css_class_string after the initial
emptiness check.  The nfkd parameter stands for the stdlib call
unicodedata.normalize("NFKD", s); the subsequent ASCII encode with "ignore"
is asciiIgnore. -/
def normalizePipeline (nfkd : String → String) (s : String) : List Char :=
  digitUnderscore (stripDashes (collapseDashes (replaceUnsafe (asciiIgnore (nfkd s).data))))

/-- css_class_string: none models a raised error (the ValueError on empty or
whitespace-only input, and the failed assert when the normalized result does
not match the CSS identifier pattern). -/
def css_class_string (nfkd : String → String) (s : String) : Option String :=
  if s.data.isEmpty || s.data.all pyIsSpace then none
  else if matchesCssIdent (normalizePipeline nfkd s) then
    some (String.mk (normalizePipeline nfkd s))
  else none

/-- JSON scalar values appearing in parsed standoff entries. -/
inductive JVal where
  | jint : ℤ → JVal
  | jstr : String → JVal
  deriving DecidableEq

/-- The namedtuple MyStandoff(start, end, type) of json_to_standoffs; the
Python field named end is stop here (end is a Lean keyword). -/
structure MyStandoff where
  start : JVal
  stop : JVal
  type : JVal
  deriving DecidableEq

/-- Loop of json_to_standoffs over the parsed entries, threading the counter
used to number entries with no type field.  Entries of length zero are
skipped, singletons become zero-width spans, two-field entries get the next
generated type name; an entry longer than three fields makes the namedtuple
constructor raise (TypeError), modelled by none. -/
def jsonToStandoffsGo : List (List JVal) → ℕ → Option (List MyStandoff)
  | [], _ => some []
  | s :: rest, i =>
    match s with
    | [] => jsonToStandoffsGo rest i
    | [a] =>
      (jsonToStandoffsGo rest (i + 1)).map
        (fun l => ⟨a, a, JVal.jstr ("type-" ++ toString (i + 1))⟩ :: l)
    | [a, b] =>
      (jsonToStandoffsGo rest (i + 1)).map
        (fun l => ⟨a, b, JVal.jstr ("type-" ++ toString (i + 1))⟩ :: l)
    | [a, b, c] => (jsonToStandoffsGo rest i).map (fun l => ⟨a, b, c⟩ :: l)
    | _ :: _ :: _ :: _ :: _ => none

/-- json_to_standoffs, taking the already-parsed JSON array (the json.loads
step is the caller's concern; a failure there propagates before this code
runs). -/
def json_to_standoffs (spans : List (List JVal)) : Option (List MyStandoff) :=
  jsonToStandoffsGo spans 0

/-- A renderer-level standoff: integer offsets and a type label, as consumed
by _standoff_to_html. -/
structure Standoff where
  start : ℤ
  stop : ℤ
  type : String
  deriving DecidableEq

/-- The fields of a Span object that are fixed at construction (the mutable
nested/height/start_marker scratch state is modelled separately, as state of
the algorithms that touch it). -/
structure SpanRec where
  start : ℤ
  stop : ℤ
  type : String
  formatting : Bool
  deriving DecidableEq

/-- Default span record for out-of-range index access (never reached on the
inputs the renderer builds). -/
def dfltSpan : SpanRec := ⟨0, 0, "", false⟩

/-- Span.__init__ with formatting=None: the formatting flag is the
membership heuristic type_ in FORMATTING_TYPE_TAG_MAP. -/
def mkSpan (start stop : ℤ) (type_ : String) : SpanRec :=
  ⟨start, stop, type_, (lookupStr type_ FORMATTING_TYPE_TAG_MAP).isSome⟩

/-- Accessors for a span list addressed by index (spans are identified by
their position in the list built from the standoffs). -/
def startOf (spans : List SpanRec) (i : ℕ) : ℤ := (spans.getD i dfltSpan).start

/-- End offset of span i. -/
def stopOf (spans : List SpanRec) (i : ℕ) : ℤ := (spans.getD i dfltSpan).stop

/-- Formatting flag of span i. -/
def fmtOf (spans : List SpanRec) (i : ℕ) : Bool := (spans.getD i dfltSpan).formatting

/-- Length end-start of span i. -/
def spanLen (spans : List SpanRec) (i : ℕ) : ℤ := stopOf spans i - startOf spans i

/-- Stable insertion of x in front of the first y with x compares-before y.
Python's list.sort and sorted are stable, and a stable sort's output is
determined by the (total) comparison alone, so insertion sort reproduces
them exactly. -/
def stableInsert (le : α → α → Bool) (x : α) : List α → List α
  | [] => [x]
  | y :: rest => if le x y then x :: y :: rest else y :: stableInsert le x rest

/-- Stable sort by the comparison le (le a b means cmp(a,b) is at most 0). -/
def stableSort (le : α → α → Bool) : List α → List α
  | [] => []
  | x :: rest => stableInsert le x (stableSort le rest)

/-- leftmost_sort as a compares-less-or-equal test on span indices: start
ascending, ties longest first. -/
def leftmostLe (spans : List SpanRec) (i j : ℕ) : Bool :=
  decide (startOf spans i < startOf spans j) ||
    (decide (startOf spans i = startOf spans j) && decide (spanLen spans j ≤ spanLen spans i))

/-- longest_sort as a compares-less-or-equal test on span indices: longest
first, ties start ascending. -/
def longestLe (spans : List SpanRec) (i j : ℕ) : Bool :=
  decide (spanLen spans j < spanLen spans i) ||
    (decide (spanLen spans i = spanLen spans j) && decide (startOf spans i ≤ startOf spans j))

/-- A set.add on a nested collection held as a duplicate-free list. -/
def addNested (nested : ℕ → List ℕ) (i j : ℕ) : ℕ → List ℕ :=
  fun k => if k = i then (if j ∈ nested i then nested i else nested i ++ [j]) else nested k

/-- The pair loop of resolve_heights recording, for every ordered pair of
positions in the open list, the later span into the earlier span's nested
set. -/
def addPairs : List ℕ → (ℕ → List ℕ) → (ℕ → List ℕ)
  | [], nested => nested
  | x :: rest, nested => addPairs rest (rest.foldl (fun nd j => addNested nd x j) nested)

/-- The main loop of resolve_heights: traverse spans leftmost first, prune
spans that have ended, insert, re-sort longest first, and record nesting
pairs. -/
def resolveNestedLoop (spans : List SpanRec) : List ℕ → List ℕ → (ℕ → List ℕ) → (ℕ → List ℕ)
  | [], _, nested => nested
  | s :: rest, openSpan, nested =>
    let o1 := openSpan.filter (fun o_ => decide (startOf spans s < stopOf spans o_))
    let o2 := stableSort (longestLe spans) (o1 ++ [s])
    resolveNestedLoop spans rest o2 (addPairs o2 nested)

/-- The nested relation resolve_heights leaves in each span's nested set,
as a function from span index to the list of nested span indices. -/
def nestedOf (spans : List SpanRec) : ℕ → List ℕ :=
  resolveNestedLoop spans (stableSort (leftmostLe spans) (List.range spans.length)) []
    (fun _ => [])

/-- Python max over a list of rationals (the code only applies it to
nonempty lists; 0 on [] is a dead default). -/
def listMaxQ : List ℚ → ℚ
  | [] => 0
  | x :: rest => rest.foldl max x

/-- Span.sort_height, computed with explicit recursion fuel over the nested
relation: 0 with no nested spans, otherwise the maximum of the nested spans'
integer heights plus this span's own increment (1, or EPSILON for a
formatting span).  The nested relation resolve_heights builds is acyclic
with chains no longer than the number of spans, so fuel spans.length
reproduces the memoized Python recursion. -/
def sortHeightFuel (nested : ℕ → List ℕ) (fmt : ℕ → Bool) : ℕ → ℕ → ℚ
  | 0, _ => 0
  | fuel + 1, i =>
    if (nested i).isEmpty then 0
    else
      listMaxQ ((nested i).map (fun n => ((⌊sortHeightFuel nested fmt fuel n⌋ : ℤ) : ℚ)))
        + (if fmt i then EPSILON else 1)

/-- Sort height of span i in the span list, after height resolution. -/
def sortHeightOf (spans : List SpanRec) (i : ℕ) : ℚ :=
  sortHeightFuel (nestedOf spans) (fmtOf spans) spans.length i

/-- Span.height: int(sort_height), i.e. the floor (sort heights are never
negative, so truncation and floor agree). -/
def heightOf (spans : List SpanRec) (i : ℕ) : ℤ := ⌊sortHeightOf spans i⌋

/-- resolve_heights' return value: the maximum span height, or -1 for an
empty span list. -/
def resolve_heights (spans : List SpanRec) : ℤ :=
  if spans.isEmpty then -1
  else
    match (List.range spans.length).map (heightOf spans) with
    | [] => -1
    | h :: t => t.foldl max h

/-- A Marker object's construction-time fields.  The serial number records
creation order and identifies the object, so that the later in-place flag
mutations (cont_right on span.start_marker, covered_right) can be replayed
onto the emitted stream; cont_left and covered_left are set before the
marker is emitted and live in the record itself. -/
structure MarkerM where
  span : ℕ
  offset : ℤ
  is_end : Bool
  cont_left : Bool
  covered_left : Bool
  serial : ℕ
  deriving DecidableEq

/-- Marker.sort_idx: the span's sort height, negated for opening markers. -/
def sortIdx (sh : ℕ → ℚ) (m : MarkerM) : ℚ :=
  sh m.span * (if m.is_end then 1 else -1)

/-- marker_sort as a compares-less-or-equal test: offset ascending, then
sort_idx ascending. -/
def markerLe (sh : ℕ → ℚ) (a b : MarkerM) : Bool :=
  decide (a.offset < b.offset) ||
    (decide (a.offset = b.offset) && decide (sortIdx sh a ≤ sortIdx sh b))

/-- The two markers built per span, in creation order (open then close per
span, spans in list order).  Span i's original open marker gets serial 2*i,
its close marker serial 2*i+1. -/
def initMarkers (spans : List SpanRec) : List MarkerM :=
  (List.range spans.length).foldr
    (fun i acc =>
      ⟨i, startOf spans i, false, false, false, 2 * i⟩ ::
        ⟨i, stopOf spans i, true, false, false, 2 * i + 1⟩ :: acc)
    []

/-- start_marker after initial marker creation: span i's open marker. -/
def initStartMarker (spans : List SpanRec) : ℕ → Option ℕ :=
  fun i => if i < spans.length then some (2 * i) else none

/-- An entry of the out stream: a literal text slice or a marker. -/
inductive OutItem where
  | txt : List Char → OutItem
  | tag : MarkerM → OutItem

/-- The mutable state of the marker-processing loop of _standoff_to_html:
the emitted stream, the previous offset o, the set of open spans (insertion
ordered), the current start marker of each span, the serial numbers whose
markers have been flagged cont_right and covered_right, and the next fresh
serial. -/
structure SweepSt where
  out : List OutItem
  o : ℤ
  openSpans : List ℕ
  startMarker : ℕ → Option ℕ
  contRight : List ℕ
  coveredRight : List ℕ
  nextSerial : ℕ

/-- Python slice text[a:b] with clamping and negative-index wrap-around. -/
def pySlice (l : List Char) (a b : ℤ) : List Char :=
  let n : ℤ := (l.length : ℤ)
  let a' : ℤ := if a < 0 then max 0 (n + a) else min a n
  let b' : ℤ := if b < 0 then max 0 (n + b) else min b n
  (l.take b'.toNat).drop a'.toNat

/-- The open spans the crossing fix-up splits at offset o: those of height
strictly below the offset's max_change_height whose true end is not o. -/
def split_targets (spans : List SpanRec) (openSpans : List ℕ) (mch o : ℤ) : List ℕ :=
  openSpans.filter (fun s => decide (heightOf spans s < mch) && decide (stopOf spans s ≠ o))

/-- Accumulator of the crossing fix-up loop: the growing to_open and
to_close lists, the start-marker map, the cont_right flag set and the serial
counter. -/
structure FixupRes where
  to_open : List MarkerM
  to_close : List MarkerM
  startMarker : ℕ → Option ℕ
  contRight : List ℕ
  nextSerial : ℕ

/-- One iteration of the fix-up loop body for an open span s: flag the
span's current start marker cont_right, create the synthetic re-opening
marker (cont_left, becoming the span's new start marker) and the synthetic
closing marker, in creation order. -/
def fixup_step (o : ℤ) (acc : FixupRes) (s : ℕ) : FixupRes :=
  let contR :=
    match acc.startMarker s with
    | some k => acc.contRight ++ [k]
    | none => acc.contRight
  { to_open := acc.to_open ++ [⟨s, o, false, true, false, acc.nextSerial⟩]
    to_close := acc.to_close ++ [⟨s, o, true, false, false, acc.nextSerial + 1⟩]
    startMarker := fun k => if k = s then some acc.nextSerial else acc.startMarker k
    contRight := contR
    nextSerial := acc.nextSerial + 2 }

/-- The crossing fix-up over the split targets. -/
def fixup_result (o : ℤ) (to_open to_close : List MarkerM) (startM : ℕ → Option ℕ)
    (contR : List ℕ) (ser : ℕ) (splits : List ℕ) : FixupRes :=
  splits.foldl (fixup_step o) ⟨to_open, to_close, startM, contR, ser⟩

/-- max_change_height: the maximum height among spans with a marker at this
offset, starting from -1. -/
def groupMaxHeight (spans : List SpanRec) (group : List MarkerM) : ℤ :=
  group.foldl (fun a m => max a (heightOf spans m.span)) (-1)

/-- min_cover_height: the minimum height among the split spans; none stands
for the initial float("inf"). -/
def minCover (spans : List SpanRec) (splits : List ℕ) : Option ℤ :=
  splits.foldl
    (fun a s =>
      match a with
      | none => some (heightOf spans s)
      | some m => some (min m (heightOf spans s)))
    none

/-- The test height > min_cover_height (false against the initial infinity). -/
def aboveCover (mc : Option ℤ) (h : ℤ) : Bool :=
  match mc with
  | none => false
  | some m => decide (m < h)

/-- Mark covered_left on every marker to open whose span is higher than the
lowest covered height. -/
def markCoveredLeft (spans : List SpanRec) (mc : Option ℤ) (l : List MarkerM) : List MarkerM :=
  l.map (fun m => if aboveCover mc (heightOf spans m.span) then { m with covered_left := true } else m)

/-- Serials whose markers get covered_right: the current start marker of the
span of every closing marker higher than the lowest covered height (read
against the post-fix-up start-marker map, as the mutation order does). -/
def coveredRightAdds (spans : List SpanRec) (mc : Option ℤ) (startM : ℕ → Option ℕ)
    (to_close : List MarkerM) : List ℕ :=
  to_close.foldl
    (fun acc m =>
      if aboveCover mc (heightOf spans m.span) then
        match startM m.span with
        | some k => acc ++ [k]
        | none => acc
      else acc)
    []

/-- Python set.remove on the open-span set: none models the KeyError raised
when the element is absent (reachable, e.g. by a zero-width span whose close
marker is processed before its open marker at the same offset). -/
def removeOpen (openSpans : List ℕ) (s : ℕ) : Option (List ℕ) :=
  if s ∈ openSpans then some (openSpans.filter (fun x => decide (x ≠ s))) else none

/-- Python set.add on the open-span set. -/
def addOpen (openSpans : List ℕ) (s : ℕ) : List ℕ :=
  if s ∈ openSpans then openSpans else openSpans ++ [s]

/-- One iteration of the marker-processing while loop, handling the whole
group of markers at a single offset: emit the pending text slice, partition
into closing and opening markers, compute max_change_height, run the
crossing fix-up, set the covered flags, re-sort both groups with
marker_sort, then emit closes before opens while updating the open set. -/
def sweepStep (spans : List SpanRec) (text : List Char) (st : SweepSt) (group : List MarkerM) :
    Option SweepSt :=
  match group with
  | [] => some st
  | g0 :: _ =>
    let o' := g0.offset
    let out1 := if st.o ≠ o' then st.out ++ [OutItem.txt (pySlice text st.o o')] else st.out
    let to_close0 := group.filter (fun m => m.is_end)
    let to_open0 := group.filter (fun m => !m.is_end)
    let mch := groupMaxHeight spans group
    let splits := split_targets spans st.openSpans mch o'
    let fr := fixup_result o' to_open0 to_close0 st.startMarker st.contRight st.nextSerial splits
    let mc := minCover spans splits
    let to_open1 := markCoveredLeft spans mc fr.to_open
    let covR := st.coveredRight ++ coveredRightAdds spans mc fr.startMarker fr.to_close
    let to_open2 := stableSort (markerLe (sortHeightOf spans)) to_open1
    let to_close2 := stableSort (markerLe (sortHeightOf spans)) fr.to_close
    match to_close2.foldlM (fun os m => removeOpen os m.span) st.openSpans with
    | none => none
    | some os1 =>
      some
        { out := out1 ++ to_close2.map OutItem.tag ++ to_open2.map OutItem.tag
          o := o'
          openSpans := to_open2.foldl (fun os m => addOpen os m.span) os1
          startMarker := fr.startMarker
          contRight := fr.contRight
          coveredRight := covR
          nextSerial := fr.nextSerial }

/-- Split the (sorted) marker list into maximal runs of equal offset, as the
while loop's inner scan does. -/
def groupByOffset : List MarkerM → List (List MarkerM)
  | [] => []
  | m :: rest =>
    match groupByOffset rest with
    | [] => [[m]]
    | g :: gs =>
      match g with
      | [] => [m] :: gs
      | x :: _ => if x.offset = m.offset then (m :: g) :: gs else [m] :: g :: gs

/-- The whole marker-processing loop from the initial state. -/
def sweepRun (spans : List SpanRec) (text : List Char) (markers : List MarkerM) :
    Option SweepSt :=
  (groupByOffset markers).foldlM (sweepStep spans text)
    ⟨[], 0, [], initStartMarker spans, [], [], 2 * spans.length⟩

/-- A marker of the final stream with all four border flags resolved. -/
structure FinalTag where
  span : ℕ
  offset : ℤ
  is_end : Bool
  cont_left : Bool
  cont_right : Bool
  covered_left : Bool
  covered_right : Bool
  deriving DecidableEq

/-- An entry of the finished body stream. -/
inductive FinalItem where
  | txt : List Char → FinalItem
  | tag : FinalTag → FinalItem
  deriving DecidableEq

/-- Replay the deferred cont_right / covered_right mutations onto the
emitted stream (the Python code mutates the shared Marker objects; here the
flag sets are applied by serial number). -/
def finalize (st : SweepSt) (items : List OutItem) : List FinalItem :=
  items.map
    (fun it =>
      match it with
      | OutItem.txt s => FinalItem.txt s
      | OutItem.tag m =>
        FinalItem.tag
          ⟨m.span, m.offset, m.is_end, m.cont_left, decide (m.serial ∈ st.contRight),
            m.covered_left, decide (m.serial ∈ st.coveredRight)⟩)

/-- Span.tag(): the generic TAG for highlight spans; for formatting spans
the mapped tag, except the short-section heading heuristic. -/
def tagNameOf (spans : List SpanRec) (i : ℕ) : String :=
  let s := spans.getD i dfltSpan
  if !s.formatting then TAG
  else if s.type = "section" && decide (s.stop - s.start < 100) then
    if decide (s.start < 10) then "h2" else "h3"
  else (lookupStr s.type FORMATTING_TYPE_TAG_MAP).getD s.type

/-- Marker.__unicode__ plus the text items: closing tag, bare formatting
tag, or the highlight tag with its class list. -/
def renderItem (spans : List SpanRec) (it : FinalItem) : String :=
  match it with
  | FinalItem.txt s => String.mk s
  | FinalItem.tag t =>
    if t.is_end then "</" ++ tagNameOf spans t.span ++ ">"
    else if fmtOf spans t.span then "<" ++ tagNameOf spans t.span ++ ">"
    else
      "<" ++ TAG ++ " class=\"ann ann-h" ++ toString (heightOf spans t.span) ++ " ann-t"
        ++ (spans.getD t.span dfltSpan).type
        ++ (if t.cont_left then " ann-contleft" else "")
        ++ (if t.cont_right then " ann-contright" else "")
        ++ (if t.covered_left then " ann-openleft" else "")
        ++ (if t.covered_right then " ann-openright" else "")
        ++ "\">"

/-- The stdlib collaborators of the renderer, abstracted: nfkd is
unicodedata.normalize("NFKD", ·); seedFn and rnd model the global
random generator (random.seed resets the state from the seed, random.random
steps the state and yields a value in [0,1)); mkColor is
colorsys.hsv_to_rgb followed by the two-hex-digit channel formatting;
darker is darker_color (float HSV arithmetic).  The RNG state is a natural
number. -/
structure Ext where
  nfkd : String → String
  seedFn : ℤ → ℕ
  rnd : ℕ → ℕ × ℚ
  mkColor : ℚ → ℚ → ℚ → String
  darker : String → String

/-- random_colors(n, seed): random.seed(seed) discards the incoming global
RNG state g and reseeds, then each of the n colors evenly divides hue space
(hue i/n) and draws saturation and value 0.9 + random()/10. -/
def random_colors (E : Ext) (n : ℕ) (seed : ℤ) (g : ℕ) : List String × ℕ :=
  (List.range n).foldl
    (fun acc i =>
      let p1 := E.rnd acc.2
      let p2 := E.rnd p1.1
      (acc.1 ++ [E.mkColor ((i : ℚ) / (n : ℚ)) (9 / 10 + p1.2 / 10) (9 / 10 + p2.2 / 10)],
        p2.1))
    ([], E.seedFn seed)

/-- kelly_colors: the reordered Kelly high-contrast palette (20 entries). -/
def kelly_colors : List String :=
  ["#FFB300", "#007D34", "#FF6800", "#A6BDD7", "#C10020", "#CEA262", "#817066",
   "#803E75", "#F6768E", "#00538A", "#FF7A5C", "#53377A", "#FF8E00", "#B32851",
   "#F4C800", "#7F180D", "#93AA00", "#593315", "#F13A13", "#232C16"]

/-- type_color_map: the preset table of domain-specific colors. -/
def type_color_map : List (String × String) :=
  [("Organism_subdivision", "#ddaaaa"),
   ("Anatomical_system", "#ee99cc"),
   ("Organ", "#ff95ee"),
   ("Multi-tissue_structure", "#e999ff"),
   ("Tissue", "#cf9fff"),
   ("Developing_anatomical_structure", "#ff9fff"),
   ("Cell", "#cf9fff"),
   ("Cellular_component", "#bbc3ff"),
   ("Organism_substance", "#ffeee0"),
   ("Immaterial_anatomical_entity", "#fff9f9"),
   ("Pathological_formation", "#aaaaaa"),
   ("Cancer", "#999999")]

/-- span_colors: compute the labels missing from the preset table, fill
them from the Kelly palette when they all fit and from random_colors(·, 1)
otherwise, then walk the labels assigning preset colors directly and fill
colors by running index.  The second component is the global RNG state
afterwards.  The fill indexing uses getD; the Python fill[i] can never be
out of range because the fill is built with exactly one entry per missing
label. -/
def span_colors (E : Ext) (types : List String) (g : ℕ) : List String × ℕ :=
  let missing := types.filter (fun t => (lookupStr t type_color_map).isNone)
  let fg : List String × ℕ :=
    if missing.length ≤ kelly_colors.length then (kelly_colors.take missing.length, g)
    else random_colors E missing.length 1 g
  let loop :=
    types.foldl
      (fun (acc : List String × ℕ) t =>
        match lookupStr t type_color_map with
        | some c => (acc.1 ++ [c], acc.2)
        | none => (acc.1 ++ [fg.1.getD acc.2 ""], acc.2 + 1))
      ([], 0)
  (loop.1, fg.2)

/-- uniq: unique items of a sequence, preserving first-appearance order. -/
def uniqGo : List String → List String → List String
  | [], _ => []
  | x :: rest, seen => if x ∈ seen then uniqGo rest seen else x :: uniqGo rest (seen ++ [x])

/-- uniq over strings. -/
def uniq (l : List String) : List String := uniqGo l []

/-- LEGEND_CSS (braces written as hex escapes). -/
def LEGEND_CSS : String :=
  ".legend \x7b\n  float:right;\n  margin-left: 10px;\n  border: 1px solid gray;\n  font-size: 90%;\n  background-color: #eee;\n  padding: 10px;\n  border-radius:         6px;\n  -moz-border-radius:    6px;\n  -webkit-border-radius: 6px;\n  box-shadow: 0 5px 10px         rgba(0, 0, 0, 0.2);\n  -moz-box-shadow: 0 5px 10px    rgba(0, 0, 0, 0.2);\n  -webkit-box-shadow: 0 5px 10px rgba(0, 0, 0, 0.2);\n  line-height: normal;\n  font-family: sans-serif;\n\x7d\n.legend span \x7b\n  display: block;\n  padding: 2px;\n  margin: 2px;\n\x7d\n.clearfix \x7b /* from bootstrap, to avoid legend overflow */\n  *zoom: 1;\n\x7d\n.clearfix:before,\n.clearfix:after \x7b\n  display: table;\n  line-height: 0;\n  content: \"\";\n\x7d\n.clearfix:after \x7b\n  clear: both;\n\x7d"

/-- BASE_CSS (braces written as hex escapes). -/
def BASE_CSS : String :=
  ".ann \x7b\n  border: 1px solid gray;\n  background-color: lightgray;\n  border-radius:         3px;\n  -moz-border-radius:    3px;\n  -webkit-border-radius: 3px;\n\x7d\n.ann-openright \x7b\n  border-right: none;\n\x7d\n.ann-openleft \x7b\n  border-left: none;\n\x7d\n.ann-contright \x7b\n  border-right: none;\n  border-top-right-radius: 0;\n  border-bottom-right-radius: 0;\n\x7d\n.ann-contleft \x7b\n  border-left: none;\n  border-top-left-radius: 0;\n  border-bottom-left-radius: 0;\x7d"

/-- line_height_css. -/
def line_height_css (height : ℤ) : String :=
  if height = 0 then ""
  else "line-height: " ++ toString (BASE_LINE_HEIGHT + 2 * height * VSPACE) ++ "px;\n"

/-- One per-height CSS block of generate_css. -/
def heightBlock (i : ℤ) : String :=
  ".ann-h" ++ toString i ++ " \x7b\n  padding-top: " ++ toString (i * VSPACE)
    ++ "px;\n  padding-bottom: " ++ toString (i * VSPACE) ++ "px;\n  "
    ++ line_height_css i ++ "\n\x7d"

/-- One per-type CSS block of generate_css. -/
def typeBlock (E : Ext) (t c : String) : String :=
  ".ann-t" ++ t ++ " \x7b\n  background-color: " ++ c ++ ";\n  border-color: "
    ++ E.darker c ++ ";\n\x7d"

/-- generate_css: the optional legend styles, the base styles, one block
per height 0..max_height, one block per type/color pair (the Python dict
built by dict(zip(types, colors)) has unique keys; its iteration is
modelled in insertion order). -/
def generate_css (E : Ext) (max_height : ℤ) (color_map : List (String × String))
    (legend : Bool) : String :=
  String.intercalate "\n"
    ((if legend then [LEGEND_CSS] else []) ++ [BASE_CSS]
      ++ (List.range (max_height + 1).toNat).map (fun i => heightBlock (i : ℤ))
      ++ color_map.map (fun tc => typeBlock E tc.1 tc.2))

/-- generate_legend: one table row per (original label, color) pair; the
color is bound but unused by the source too.  css_class_string is called
again on each label, so its failure propagates. -/
def generate_legend (E : Ext) (types colors : List String) : Option String :=
  ((types.zip colors).mapM
      (fun fc =>
        (css_class_string E.nfkd fc.1).map
          (fun t =>
            "<tr><td>" ++ "<" ++ TAG ++ " class=\"ann ann-t" ++ t ++ "\">" ++ fc.1
              ++ "</" ++ TAG ++ ">" ++ "</td></tr>"))).map
    (fun rows => "<div class=\"legend\">Legend<table>" ++ String.join rows ++ "</table></div>")

/-- Python dict-comprehension lookup where a later duplicate key overwrites
an earlier one: lookup in the reversed association list. -/
def lookupLast (k : String) (l : List (String × String)) : Option String :=
  lookupStr k l.reverse

/-- The body of _standoff_to_html: returns the generated css, the body
string, and the body's item stream (the stream the string is rendered
from), or none when an error propagates (css_class_string failures, or the
KeyError of set.remove in the marker loop). -/
def renderPipeline (E : Ext) (text : String) (standoffs : List Standoff) (legend : Bool)
    (g : ℕ) : Option (String × String × List FinalItem) := do
  let spans ← standoffs.mapM
    (fun so => (css_class_string E.nfkd so.type).map (fun t => mkSpan so.start so.stop t))
  let types := uniq ((spans.filter (fun s => !s.formatting)).map SpanRec.type)
  let colors := (span_colors E types g).1
  let color_map := types.zip colors
  let full_forms := uniq (standoffs.map Standoff.type)
  let t2f ← full_forms.mapM
    (fun f => (css_class_string E.nfkd f).map (fun k => (k, f)))
  let legend_types ← types.mapM (fun t => lookupLast t t2f)
  let legend_html ← if legend then generate_legend E legend_types colors else some ""
  let max_height := resolve_heights spans
  let css := generate_css E max_height color_map legend
  let markers := stableSort (markerLe (sortHeightOf spans)) (initMarkers spans)
  let st ← sweepRun spans text.data markers
  let outF := st.out ++ [OutItem.txt (pySlice text.data st.o (text.data.length : ℤ))]
  let items := finalize st outF
  some (css, legend_html ++ String.join (items.map (renderItem spans)), items)

/-- _standoff_to_html: the (css, body) pair. -/
def _standoff_to_html (E : Ext) (text : String) (standoffs : List Standoff) (legend : Bool)
    (g : ℕ) : Option (String × String) :=
  (renderPipeline E text standoffs legend g).map (fun r => (r.1, r.2.1))

/-- The body's marker/text item stream alone. -/
def bodyItems (E : Ext) (text : String) (standoffs : List Standoff) (legend : Bool)
    (g : ℕ) : Option (List FinalItem) :=
  (renderPipeline E text standoffs legend g).map (fun r => r.2.2)

/-- The (span, offset, is_end) events of a body stream. -/
def tagEventsOf (items : List FinalItem) : List (ℕ × ℤ × Bool) :=
  items.filterMap
    (fun it =>
      match it with
      | FinalItem.tag t => some (t.span, t.offset, t.is_end)
      | FinalItem.txt _ => none)

/-- Offsets at which span s opens, in stream order. -/
def openOffsetsOf (evs : List (ℕ × ℤ × Bool)) (s : ℕ) : List ℤ :=
  evs.filterMap (fun e => if e.1 = s && e.2.2 = false then some e.2.1 else none)

/-- Offsets at which span s closes, in stream order. -/
def closeOffsetsOf (evs : List (ℕ × ℤ × Bool)) (s : ℕ) : List ℤ :=
  evs.filterMap (fun e => if e.1 = s && e.2.2 = true then some e.2.1 else none)

/-- The rendered fragments of span s: its k-th open paired with its k-th
close. -/
def fragmentsOf (evs : List (ℕ × ℤ × Bool)) (s : ℕ) : List (ℤ × ℤ) :=
  (openOffsetsOf evs s).zip (closeOffsetsOf evs s)

/-- Two fragments cross when their ranges overlap but neither contains the
other. -/
def crossPairs (f g : ℤ × ℤ) : Bool :=
  decide (f.1 < g.1) && decide (g.1 < f.2) && decide (f.2 < g.2)

/-- A concrete instantiation of the stdlib collaborators, used to evaluate
the renderer at concrete inputs whose labels are ASCII (there NFKD is the
identity); the RNG and color generator values are irrelevant to the marker
stream and are given trivial stand-ins. -/
def extId : Ext := ⟨id, fun _ => 0, fun g => (g, 0), fun _ _ _ => "#generated", fun _ => ""⟩

/-- A formatting span overlapping a highlight span of the same integer
height: the input exhibiting the crossing-tag failure. -/
def c1standoffs : List Standoff := [⟨0, 10, "bold"⟩, ⟨5, 15, "X"⟩]

/-- The tag events the renderer emits for c1standoffs over a 15-character
text. -/
def c1events : List (ℕ × ℤ × Bool) :=
  tagEventsOf ((bodyItems extId "0123456789ABCDE" c1standoffs false 0).getD [])

/-- The spans of the spec's epsilon-increment example: a highlight span
over [0,10) nesting only the italic formatting span [2,5). -/
def c2spans : List SpanRec := [mkSpan 0 10 "highlight", mkSpan 2 5 "italic"]

/-- No two adjacent dashes anywhere in the list (the shape collapseDashes
leaves behind). -/
def noDD : List Char → Bool
  | [] => true
  | [_] => true
  | a :: b :: rest => !(a = '-' && b = '-') && noDD (b :: rest)

/-- The labels of types that are not in the preset color table. -/
def missingOf (types : List String) : List String :=
  types.filter (fun t => (lookupStr t type_color_map).isNone)

/-- The fill colors span_colors draws non-preset colors from: a Kelly
palette segment when every missing label fits, the seeded generated colors
otherwise. -/
def fillOf (E : Ext) (types : List String) (g : ℕ) : List String :=
  if (missingOf types).length ≤ kelly_colors.length then
    kelly_colors.take (missingOf types).length
  else (random_colors E (missingOf types).length 1 g).1

/-- Specification-side restatement of span_colors' per-label resolution
order (from the spec's wording, for the refinement comparison): each label
takes its preset color when it has one, and otherwise the k-th fill color
where k counts the earlier non-preset labels. -/
def colorsSpec (fill : List String) : List String → ℕ → List String
  | [], _ => []
  | t :: rest, k =>
    match lookupStr t type_color_map with
    | some c => c :: colorsSpec fill rest k
    | none => fill.getD k "" :: colorsSpec fill rest (k + 1)

/-- Twenty-one distinct labels, none in the preset table: one more than
the Kelly palette holds. -/
def c6types : List String := (List.range 21).map (fun i => "t" ++ toString i)

end SO2HTML

namespace SO2HTML

/-- C1.  The renderer's marker stream is NOT non-crossing: on the text
"0123456789ABCDE" with standoffs (0,10,"bold") and (5,15,"X") the emitted
stream opens the bold span at 0, opens the highlight span at 5, closes the
bold span at 10 while the highlight span is still open, and closes the
highlight span at 15 — the two rendered fragments [0,10) and [5,15) overlap
and neither contains the other.  The crossing fix-up compares int heights
(both 0 here, the formatting span's EPSILON being floored away), so the
highlight span is never split.  This contradicts the non-crossing invariant
the claim states and the fix-up's own stated purpose. -/
theorem c1_crossing_emitted :
    c1events = [(0, 0, false), (1, 5, false), (0, 10, true), (1, 15, true)] ∧
      fragmentsOf c1events 0 = [(0, 10)] ∧
      fragmentsOf c1events 1 = [(5, 15)] ∧
      crossPairs (0, 10) (5, 15) = true := by
  refine ⟨?_, ?_, ?_, ?_⟩ <;> with_unfolding_all rfl

/-- C2.  In the spec's example — a highlight span [0,10) nesting only the
italic formatting span [2,5) — the embedded height computation returns 1
for the highlight span, not the 0 the claim states: the +1 own-increment of
the non-formatting wrapper applies regardless of its children being
formatting spans (the height+1 effect the source's own TODO comment
records). -/
theorem c2_height_is_one :
    heightOf c2spans 0 = 1 ∧ heightOf c2spans 1 = 0 ∧
      nestedOf c2spans 0 = [1] ∧ nestedOf c2spans 1 = [] ∧
      fmtOf c2spans 0 = false ∧ fmtOf c2spans 1 = true := by
  refine ⟨?_, ?_, ?_, ?_, ?_, ?_⟩ <;> with_unfolding_all rfl

/-- C3 counterexample.  The JSON standoff parser accepts the malformed
entry (5,3,"X") — end before start — unchanged as a negative-width
standoff, and silently skips a zero-field entry; no MalformedStandoff
rejection exists anywhere in the conversion. -/
theorem c3_malformed_accepted :
    json_to_standoffs [[JVal.jint 5, JVal.jint 3, JVal.jstr "X"]] =
        some [⟨JVal.jint 5, JVal.jint 3, JVal.jstr "X"⟩] ∧
      json_to_standoffs [[]] = some [] := by
  decide

/-- C3 amended.  Every three-field entry is accepted exactly as given (no
start-end validation of any kind), and a zero-field entry is skipped
rather than rejected. -/
theorem c3_no_validation (a b c : JVal) :
    json_to_standoffs [[a, b, c]] = some [⟨a, b, c⟩] ∧
      json_to_standoffs [[], [a, b, c]] = some [⟨a, b, c⟩] := by
  constructor <;> rfl

/-- C4.  The marker comparison orders by offset first; at equal offsets the
key is the span's sort height, negated for opening markers and unchanged
for closing markers, so of two markers at one offset the taller span's
opening marker sorts strictly first and its closing marker sorts strictly
last. -/
theorem c4_marker_sort_order (sh : ℕ → ℚ) (a b : MarkerM) :
    (sortIdx sh a = if a.is_end then sh a.span else -(sh a.span)) ∧
      (a.offset < b.offset → markerLe sh a b = true ∧ markerLe sh b a = false) ∧
      (a.offset = b.offset → a.is_end = false → b.is_end = false →
        sh b.span < sh a.span → markerLe sh a b = true ∧ markerLe sh b a = false) ∧
      (a.offset = b.offset → a.is_end = true → b.is_end = true →
        sh b.span < sh a.span → markerLe sh b a = true ∧ markerLe sh a b = false) := by
  refine ⟨?_, ?_, ?_, ?_⟩
  · unfold sortIdx
    rcases a.is_end <;> simp
  · intro h
    constructor
    · simp [markerLe, h]
    · simp [markerLe, not_lt_of_lt h, (ne_of_lt h).symm]
  · intro heq ha hb hlt
    have hidxa : sortIdx sh a = -(sh a.span) := by simp [sortIdx, ha]
    have hidxb : sortIdx sh b = -(sh b.span) := by simp [sortIdx, hb]
    constructor
    · simp [markerLe, heq, hidxa, hidxb, le_of_lt hlt]
    · simp [markerLe, heq.symm, hidxa, hidxb, hlt]
  · intro heq ha hb hlt
    have hidxa : sortIdx sh a = sh a.span := by simp [sortIdx, ha]
    have hidxb : sortIdx sh b = sh b.span := by simp [sortIdx, hb]
    constructor
    · simp [markerLe, heq.symm, hidxa, hidxb, le_of_lt hlt]
    · simp [markerLe, heq, hidxa, hidxb, hlt]

/-- The loop of span_colors unrolled against the spec-side colorsSpec. -/
theorem spanColorsLoop_eq (fill : List String) :
    ∀ (ts : List String) (cs : List String) (k : ℕ),
      (ts.foldl
          (fun (acc : List String × ℕ) t =>
            match lookupStr t type_color_map with
            | some c => (acc.1 ++ [c], acc.2)
            | none => (acc.1 ++ [fill.getD acc.2 ""], acc.2 + 1))
          (cs, k)).1
        = cs ++ colorsSpec fill ts k := by
  intro ts
  induction ts with
  | nil => intro cs k; simp [colorsSpec]
  | cons t rest ih =>
    intro cs k
    cases h : lookupStr t type_color_map with
    | some c =>
      simp only [List.foldl_cons, h, colorsSpec]
      rw [ih]
      simp
    | none =>
      simp only [List.foldl_cons, h, colorsSpec]
      rw [ih]
      simp

/-- random_colors reseeds from its seed argument, so the incoming global
generator state is immaterial. -/
theorem random_colors_state_free (E : Ext) (n : ℕ) (seed : ℤ) (g g' : ℕ) :
    random_colors E n seed g = random_colors E n seed g' := rfl

/-- span_colors against the spec-side resolution order. -/
theorem span_colors_eq_spec (E : Ext) (types : List String) (g : ℕ) :
    (span_colors E types g).1 = colorsSpec (fillOf E types g) types 0 := by
  unfold span_colors fillOf missingOf
  by_cases h :
      (types.filter fun t => (lookupStr t type_color_map).isNone).length ≤ kelly_colors.length <;>
    simp only [h, if_true, if_false, reduceIte] <;>
    exact spanColorsLoop_eq _ types [] 0

/-- C7.  Color allocation ignores the incoming global RNG state: the fill
colors are either a palette segment or generated after an unconditional
reseed, so two invocations with the same label list return the same
colors. -/
theorem c7_color_allocation_deterministic (E : Ext) (types : List String) (g g' : ℕ) :
    (span_colors E types g).1 = (span_colors E types g').1 := by
  rw [span_colors_eq_spec, span_colors_eq_spec]
  unfold fillOf
  by_cases h : (missingOf types).length ≤ kelly_colors.length <;>
    simp only [h, if_true, if_false, reduceIte]
  rw [random_colors_state_free E _ 1 g g']

/-- C6 counterexample.  With twenty-one labels absent from the preset
table, the first such label's color is not drawn from the Kelly palette at
all (the claim's resolution order says unmatched labels draw from the
palette in order of first appearance): every color comes from the seeded
generator. -/
theorem c6_kelly_unused_on_overflow :
    (lookupStr (c6types.getD 0 "") type_color_map).isNone = true ∧
      (span_colors extId c6types 0).1.getD 0 "" = "#generated" ∧
      "#generated" ∉ kelly_colors ∧
      (missingOf c6types).length = 21 := by
  refine ⟨by decide, by decide, by decide, by decide⟩

/-- C6 amended.  The per-label resolution order: a preset color when the
table has the label; otherwise the k-th fill color, k counting the earlier
non-preset labels — where the fill is the Kelly palette's first entries
when the non-preset labels all fit in the palette, and consists entirely
of seeded generated colors (hue i/n, randomized saturation/value drawn
after reseeding with 1) when they do not. -/
theorem c6_resolution_order (E : Ext) (types : List String) (g : ℕ) :
    (span_colors E types g).1 = colorsSpec (fillOf E types g) types 0 :=
  span_colors_eq_spec E types g

/-- Unfolds membership in the crossing fix-up's target list. -/
theorem mem_split_targets (spans : List SpanRec) (openSpans : List ℕ) (mch o : ℤ) (s : ℕ) :
    s ∈ split_targets spans openSpans mch o ↔
      s ∈ openSpans ∧ heightOf spans s < mch ∧ stopOf spans s ≠ o := by
  simp [split_targets, List.mem_filter, and_assoc]

/-- The fix-up fold only appends to the closing-marker list. -/
theorem fixup_close_superset (o : ℤ) :
    ∀ (splits : List ℕ) (acc : FixupRes) (m : MarkerM),
      m ∈ acc.to_close → m ∈ (splits.foldl (fixup_step o) acc).to_close := by
  intro splits
  induction splits with
  | nil => intro acc m hm; simpa using hm
  | cons x rest ih =>
    intro acc m hm
    exact ih (fixup_step o acc x) m (List.mem_append_left _ hm)

/-- The fix-up fold only appends to the opening-marker list. -/
theorem fixup_open_superset (o : ℤ) :
    ∀ (splits : List ℕ) (acc : FixupRes) (m : MarkerM),
      m ∈ acc.to_open → m ∈ (splits.foldl (fixup_step o) acc).to_open := by
  intro splits
  induction splits with
  | nil => intro acc m hm; simpa using hm
  | cons x rest ih =>
    intro acc m hm
    exact ih (fixup_step o acc x) m (List.mem_append_left _ hm)

/-- The fix-up fold only appends to the cont_right flag set. -/
theorem fixup_contRight_superset (o : ℤ) :
    ∀ (splits : List ℕ) (acc : FixupRes) (k : ℕ),
      k ∈ acc.contRight → k ∈ (splits.foldl (fixup_step o) acc).contRight := by
  intro splits
  induction splits with
  | nil => intro acc k hk; simpa using hk
  | cons x rest ih =>
    intro acc k hk
    refine ih (fixup_step o acc x) k ?_
    cases h : acc.startMarker x with
    | none => simpa [fixup_step, h] using hk
    | some j =>
      simp only [fixup_step, h]
      exact List.mem_append_left _ hk

/-- Every split span gets a synthetic closing marker at the offset. -/
theorem fixup_close_mem (o : ℤ) :
    ∀ (splits : List ℕ) (acc : FixupRes) (s : ℕ), s ∈ splits →
      ∃ m ∈ (splits.foldl (fixup_step o) acc).to_close,
        m.span = s ∧ m.is_end = true ∧ m.offset = o := by
  intro splits
  induction splits with
  | nil => intro acc s h; simp at h
  | cons x rest ih =>
    intro acc s hs
    rcases List.mem_cons.mp hs with h | h
    · subst h
      refine ⟨⟨s, o, true, false, false, acc.nextSerial + 1⟩, ?_, rfl, rfl, rfl⟩
      exact fixup_close_superset o rest (fixup_step o acc s) _
        (List.mem_append_right _ (List.mem_singleton_self _))
    · exact ih (fixup_step o acc x) s h

/-- Every split span gets a synthetic re-opening marker flagged cont_left
at the offset. -/
theorem fixup_open_mem (o : ℤ) :
    ∀ (splits : List ℕ) (acc : FixupRes) (s : ℕ), s ∈ splits →
      ∃ m ∈ (splits.foldl (fixup_step o) acc).to_open,
        m.span = s ∧ m.is_end = false ∧ m.cont_left = true ∧ m.offset = o := by
  intro splits
  induction splits with
  | nil => intro acc s h; simp at h
  | cons x rest ih =>
    intro acc s hs
    rcases List.mem_cons.mp hs with h | h
    · subst h
      refine ⟨⟨s, o, false, true, false, acc.nextSerial⟩, ?_, rfl, rfl, rfl, rfl⟩
      exact fixup_open_superset o rest (fixup_step o acc s) _
        (List.mem_append_right _ (List.mem_singleton_self _))
    · exact ih (fixup_step o acc x) s h

/-- Every split span's pre-existing start marker is flagged cont_right. -/
theorem fixup_contRight_mem (o : ℤ) :
    ∀ (splits : List ℕ) (acc : FixupRes) (s : ℕ) (k : ℕ), splits.Nodup → s ∈ splits →
      acc.startMarker s = some k → k ∈ (splits.foldl (fixup_step o) acc).contRight := by
  intro splits
  induction splits with
  | nil => intro acc s k _ h _; simp at h
  | cons x rest ih =>
    intro acc s k hnd hs hsm
    rcases List.mem_cons.mp hs with h | h
    · subst h
      refine fixup_contRight_superset o rest (fixup_step o acc s) k ?_
      simp only [fixup_step, hsm]
      exact List.mem_append_right _ (List.mem_singleton_self _)
    · have hx : ¬s = x := by
        intro e
        exact (List.nodup_cons.mp hnd).1 (e ▸ h)
      refine ih (fixup_step o acc x) s k (List.nodup_cons.mp hnd).2 h ?_
      simpa [fixup_step, hx] using hsm

/-- C5.  During the sweep the crossing fix-up splits exactly the spans the
claim names: a span is a split target iff it is currently open, its height
is strictly below the maximum height among spans opening or closing at the
offset, and its true end is not the offset; and for every split target the
fix-up emits a synthetic closing marker at the offset, emits a synthetic
opening marker flagged continues-left, and flags the span's existing open
marker continues-right.  (sweepStep feeds split_targets with
max_change_height and the open set and hands the result to fixup_result;
the open-span set contains no duplicates.) -/
theorem c5_crossing_fixup (spans : List SpanRec) (openSpans : List ℕ) (mch o : ℤ)
    (to_open to_close : List MarkerM) (startM : ℕ → Option ℕ) (contR : List ℕ)
    (ser : ℕ) (s : ℕ) (hnd : openSpans.Nodup) :
    (s ∈ split_targets spans openSpans mch o ↔
        s ∈ openSpans ∧ heightOf spans s < mch ∧ stopOf spans s ≠ o) ∧
      (s ∈ split_targets spans openSpans mch o →
        (∃ m ∈ (fixup_result o to_open to_close startM contR ser
              (split_targets spans openSpans mch o)).to_close,
            m.span = s ∧ m.is_end = true ∧ m.offset = o) ∧
          (∃ m ∈ (fixup_result o to_open to_close startM contR ser
                (split_targets spans openSpans mch o)).to_open,
              m.span = s ∧ m.is_end = false ∧ m.cont_left = true ∧ m.offset = o) ∧
          (∀ k, startM s = some k →
            k ∈ (fixup_result o to_open to_close startM contR ser
                (split_targets spans openSpans mch o)).contRight)) := by
  refine ⟨mem_split_targets spans openSpans mch o s, fun hs => ⟨?_, ?_, ?_⟩⟩
  · exact fixup_close_mem o _ _ s hs
  · exact fixup_open_mem o _ _ s hs
  · intro k hk
    exact fixup_contRight_mem o _ _ s k (hnd.filter _) hs hk

/-- C5 witness: a single open highlight span of height 0, below a
max-change-height of 1, whose end 5 is not the offset 3, is split there;
its start marker (serial 7) is flagged cont_right. -/
theorem c5_crossing_fixup_witness :
    0 ∈ split_targets [mkSpan 0 5 "X"] [0] 1 3 ∧
      7 ∈ (fixup_result 3 [] [] (fun _ => some 7) [] 0
          (split_targets [mkSpan 0 5 "X"] [0] 1 3)).contRight := by
  have h := c5_crossing_fixup [mkSpan 0 5 "X"] [0] 1 3 [] [] (fun _ => some 7) [] 0 0
    (by simp)
  have hmem : 0 ∈ split_targets [mkSpan 0 5 "X"] [0] 1 3 :=
    of_decide_eq_true (by with_unfolding_all rfl)
  exact ⟨hmem, ((h.2 hmem).2.2) 7 rfl⟩

/-- Safe characters are ASCII code points. -/
theorem safe_ascii {c : Char} (h : isSafeChar c = true) : c.toNat < 128 := by
  unfold isSafeChar at h
  simp only [Bool.or_eq_true, Bool.and_eq_true, decide_eq_true_eq] at h
  omega

/-- Safe characters are not whitespace. -/
theorem safe_not_space {c : Char} (h : isSafeChar c = true) : pyIsSpace c = false := by
  unfold isSafeChar at h
  unfold pyIsSpace
  simp only [Bool.or_eq_true, Bool.and_eq_true, decide_eq_true_eq] at h ⊢
  simp only [Bool.or_eq_false_iff, decide_eq_false_iff_not]
  omega

/-- The dash is a safe character. -/
theorem dash_safe : isSafeChar '-' = true := by decide

/-- Every character of replaceUnsafe's output is safe. -/
theorem replaceUnsafe_mem_safe : ∀ (l : List Char), ∀ ch ∈ replaceUnsafe l, isSafeChar ch = true := by
  intro l
  induction l with
  | nil => intro ch h; simp [replaceUnsafe] at h
  | cons c t ih =>
    intro ch h
    rcases List.mem_cons.mp h with h | h
    · subst h
      by_cases hc : isSafeChar c = true
      · simp only [hc, if_true]
      · simp only [replaceUnsafe, List.map_cons] at *
        simp [hc]
        exact dash_safe
    · exact ih ch h

/-- collapseDashes keeps only characters of its input. -/
theorem collapse_subset : ∀ (l : List Char), collapseDashes l ⊆ l := by
  intro l
  induction l with
  | nil => simp [collapseDashes]
  | cons a t ih =>
    cases t with
    | nil => simp [collapseDashes]
    | cons b rest =>
      intro ch h
      by_cases hd : a = '-' ∧ b = '-'
      · have : collapseDashes (a :: b :: rest) = collapseDashes (b :: rest) := by
          simp [collapseDashes, hd.1, hd.2]
        rw [this] at h
        exact List.mem_cons_of_mem a (ih h)
      · have hne : (a = '-' && b = '-') = false := by
          rcases Decidable.not_and_iff_or_not.mp hd with h' | h' <;> simp [h']
        have : collapseDashes (a :: b :: rest) = a :: collapseDashes (b :: rest) := by
          simp [collapseDashes, hne]
        rw [this] at h
        rcases List.mem_cons.mp h with h | h
        · exact h ▸ List.mem_cons_self a _
        · exact List.mem_cons_of_mem a (ih h)

/-- dropTrailingDashes keeps only characters of its input. -/
theorem dropTrailing_subset : ∀ (l : List Char), dropTrailingDashes l ⊆ l := by
  intro l
  induction l with
  | nil => simp [dropTrailingDashes]
  | cons c t ih =>
    intro ch h
    simp only [dropTrailingDashes] at h
    by_cases hb : (dropTrailingDashes t).isEmpty && c = '-'
    · simp [hb] at h
    · simp only [hb, if_false, Bool.false_eq_true] at h
      rcases List.mem_cons.mp h with h | h
      · exact h ▸ List.mem_cons_self c _
      · exact List.mem_cons_of_mem c (ih h)

/-- Every character of the normalization pipeline's output is safe. -/
theorem pipeline_mem_safe (nfkd : String → String) (s : String) :
    ∀ ch ∈ normalizePipeline nfkd s, isSafeChar ch = true := by
  intro ch h
  unfold normalizePipeline at h
  have hdu : ch = '_' ∨ ch ∈ stripDashes (collapseDashes (replaceUnsafe (asciiIgnore (nfkd s).data))) := by
    unfold digitUnderscore at h
    rcases he : stripDashes (collapseDashes (replaceUnsafe (asciiIgnore (nfkd s).data))) with _ | ⟨d, t⟩
    · rw [he] at h; simp at h
    · rw [he] at h
      by_cases hd : isDigitChar d = true
      · simp only [hd, if_true] at h
        rcases List.mem_cons.mp h with h | h
        · exact Or.inl h
        · exact Or.inr (he ▸ h)
      · have hmem : ch ∈ d :: t := by simpa [hd] using h
        exact Or.inr hmem
  rcases hdu with h' | h'
  · subst h'; decide
  · have h2 : ch ∈ collapseDashes (replaceUnsafe (asciiIgnore (nfkd s).data)) := by
      unfold stripDashes at h'
      exact (List.dropWhile_sublist _).subset (dropTrailing_subset _ h')
    exact replaceUnsafe_mem_safe _ ch (collapse_subset _ h2)

/-- noDD drops from a cons to its tail. -/
theorem noDD_tail {a : Char} {l : List Char} (h : noDD (a :: l) = true) : noDD l = true := by
  cases l with
  | nil => rfl
  | cons b t =>
    unfold noDD at h
    exact (Bool.and_eq_true_iff.mp h).2

/-- The left half of an append inherits noDD. -/
theorem noDD_append_left : ∀ (l1 l2 : List Char), noDD (l1 ++ l2) = true → noDD l1 = true := by
  intro l1
  induction l1 with
  | nil => intro l2 _; rfl
  | cons a t ih =>
    intro l2 h
    cases t with
    | nil => rfl
    | cons b t' =>
      unfold noDD at h ⊢
      rcases Bool.and_eq_true_iff.mp h with ⟨h1, h2⟩
      exact Bool.and_eq_true_iff.mpr ⟨h1, ih l2 h2⟩

/-- The right half of an append inherits noDD. -/
theorem noDD_append_right : ∀ (l1 l2 : List Char), noDD (l1 ++ l2) = true → noDD l2 = true := by
  intro l1
  induction l1 with
  | nil => intro l2 h; simpa using h
  | cons a t ih => intro l2 h; exact ih l2 (noDD_tail h)

/-- collapseDashes preserves the head of a nonempty list. -/
theorem collapse_cons_ex : ∀ (b : Char) (rest : List Char), ∃ t, collapseDashes (b :: rest) = b :: t := by
  intro b rest
  induction rest generalizing b with
  | nil => exact ⟨[], rfl⟩
  | cons b' r' ih =>
    by_cases hd : b = '-' ∧ b' = '-'
    · obtain ⟨t, ht⟩ := ih b'
      refine ⟨t, ?_⟩
      rw [show collapseDashes (b :: b' :: r') = collapseDashes (b' :: r') by
        simp [collapseDashes, hd.1, hd.2]]
      rw [ht, hd.1, hd.2]
    · have hne : (b = '-' && b' = '-') = false := by
        rcases Decidable.not_and_iff_or_not.mp hd with h' | h' <;> simp [h']
      exact ⟨collapseDashes (b' :: r'), by simp [collapseDashes, hne]⟩

/-- collapseDashes leaves no two adjacent dashes. -/
theorem noDD_collapse : ∀ (l : List Char), noDD (collapseDashes l) = true := by
  intro l
  induction l with
  | nil => rfl
  | cons a t ih =>
    cases t with
    | nil => rfl
    | cons b rest =>
      by_cases hd : a = '-' ∧ b = '-'
      · rw [show collapseDashes (a :: b :: rest) = collapseDashes (b :: rest) by
          simp [collapseDashes, hd.1, hd.2]]
        exact ih
      · have hne : (a = '-' && b = '-') = false := by
          rcases Decidable.not_and_iff_or_not.mp hd with h' | h' <;> simp [h']
        rw [show collapseDashes (a :: b :: rest) = a :: collapseDashes (b :: rest) by
          simp [collapseDashes, hne]]
        obtain ⟨t', ht'⟩ := collapse_cons_ex b rest
        rw [ht']
        unfold noDD
        refine Bool.and_eq_true_iff.mpr ⟨?_, ht' ▸ ih⟩
        by_cases hb : b = '-'
        · have ha : ¬a = '-' := fun ha => hd ⟨ha, hb⟩
          simp [ha]
        · simp [hb]

/-- A list with no adjacent dashes is a fixed point of collapseDashes. -/
theorem collapse_eq_self : ∀ (l : List Char), noDD l = true → collapseDashes l = l := by
  intro l
  induction l with
  | nil => intro _; rfl
  | cons a t ih =>
    intro h
    cases t with
    | nil => rfl
    | cons b rest =>
      have h1 : (a = '-' && b = '-') = false := by
        unfold noDD at h
        rcases Bool.and_eq_true_iff.mp h with ⟨h1, _⟩
        simp at h1 ⊢
        tauto
      rw [show collapseDashes (a :: b :: rest) = a :: collapseDashes (b :: rest) by
        simp [collapseDashes, h1]]
      rw [ih (noDD_tail h)]

/-- dropTrailingDashes is an initial segment: some suffix restores the
input. -/
theorem dropTrailing_append : ∀ (l : List Char), ∃ t, dropTrailingDashes l ++ t = l := by
  intro l
  induction l with
  | nil => exact ⟨[], rfl⟩
  | cons c rest ih =>
    obtain ⟨t, ht⟩ := ih
    unfold dropTrailingDashes
    by_cases hb : (dropTrailingDashes rest).isEmpty && c = '-'
    · exact ⟨c :: rest, by simp [hb]⟩
    · exact ⟨t, by simp [hb, ht]⟩

/-- dropWhile is a final segment: some leading part restores the input. -/
theorem dropWhile_append (p : Char → Bool) :
    ∀ (l : List Char), ∃ t, t ++ l.dropWhile p = l := by
  intro l
  induction l with
  | nil => exact ⟨[], rfl⟩
  | cons c rest ih =>
    by_cases hc : p c = true
    · obtain ⟨t, ht⟩ := ih
      exact ⟨c :: t, by simp [List.dropWhile_cons, hc, ht]⟩
    · exact ⟨[], by simp [List.dropWhile_cons, hc]⟩

/-- stripDashes preserves the no-adjacent-dashes shape. -/
theorem noDD_strip {l : List Char} (h : noDD l = true) : noDD (stripDashes l) = true := by
  unfold stripDashes
  obtain ⟨t1, ht1⟩ := dropWhile_append (fun c => c = '-') l
  have h1 : noDD (l.dropWhile (fun c => c = '-')) = true :=
    noDD_append_right t1 _ (by rw [ht1]; exact h)
  obtain ⟨t2, ht2⟩ := dropTrailing_append (l.dropWhile (fun c => c = '-'))
  exact noDD_append_left _ t2 (by rw [ht2]; exact h1)

/-- The first character surviving dropWhile fails the predicate. -/
theorem head_dropWhile_false (p : Char → Bool) :
    ∀ (l : List Char) (c : Char) (t : List Char), l.dropWhile p = c :: t → p c = false := by
  intro l
  induction l with
  | nil => intro c t h; simp at h
  | cons a rest ih =>
    intro c t h
    by_cases ha : p a = true
    · rw [List.dropWhile_cons_of_pos ha] at h
      exact ih c t h
    · rw [List.dropWhile_cons_of_neg ha] at h
      cases h
      simpa using ha

/-- dropTrailingDashes leaves no trailing dash. -/
theorem dropTrailing_getLast_ne : ∀ (l : List Char), (dropTrailingDashes l).getLast? ≠ some '-' := by
  intro l
  induction l with
  | nil => simp [dropTrailingDashes]
  | cons c rest ih =>
    unfold dropTrailingDashes
    by_cases hb : (dropTrailingDashes rest).isEmpty && c = '-'
    · simp [hb]
    · simp only [hb, Bool.false_eq_true, if_false]
      rcases hr : dropTrailingDashes rest with _ | ⟨d, t⟩
      · have hc : ¬c = '-' := by
          intro e
          rw [hr, e] at hb
          simp at hb
        simp [hc]
      · rw [List.getLast?_cons_cons]
        rw [hr] at ih
        exact ih

/-- A list whose last entry is not a dash is a fixed point of
dropTrailingDashes. -/
theorem dropTrailing_eq_self : ∀ (l : List Char), l.getLast? ≠ some '-' → dropTrailingDashes l = l := by
  intro l
  induction l with
  | nil => intro _; rfl
  | cons c rest ih =>
    intro h
    cases rest with
    | nil =>
      have hc : ¬c = '-' := by simpa using h
      simp [dropTrailingDashes, hc]
    | cons d rest' =>
      have h' : (d :: rest').getLast? ≠ some '-' := by
        rw [List.getLast?_cons_cons] at h
        exact h
      unfold dropTrailingDashes
      rw [ih h']
      simp

/-- A list of safe characters is a fixed point of replaceUnsafe. -/
theorem replaceUnsafe_eq_self : ∀ (l : List Char), (∀ ch ∈ l, isSafeChar ch = true) →
    replaceUnsafe l = l := by
  intro l
  induction l with
  | nil => intro _; rfl
  | cons c t ih =>
    intro h
    unfold replaceUnsafe at ih ⊢
    simp only [List.map_cons]
    rw [if_pos (h c (List.mem_cons_self c t))]
    rw [ih (fun ch hch => h ch (List.mem_cons_of_mem c hch))]

/-- A list of safe characters is a fixed point of asciiIgnore. -/
theorem asciiIgnore_eq_self : ∀ (l : List Char), (∀ ch ∈ l, isSafeChar ch = true) →
    asciiIgnore l = l := by
  intro l h
  unfold asciiIgnore
  apply List.filter_eq_self.mpr
  intro ch hch
  exact decide_eq_true (safe_ascii (h ch hch))

/-- digitUnderscore preserves the no-adjacent-dashes shape. -/
theorem noDD_digitUnderscore {l : List Char} (h : noDD l = true) :
    noDD (digitUnderscore l) = true := by
  unfold digitUnderscore
  cases l with
  | nil => rfl
  | cons d t =>
    by_cases hd : isDigitChar d = true
    · simp only [hd, if_true]
      cases t with
      | nil => rfl
      | cons b t' =>
        unfold noDD at h ⊢
        refine Bool.and_eq_true_iff.mpr ⟨by simp, h⟩
    · simp only [hd, Bool.false_eq_true, if_false]
      exact h

/-- digitUnderscore is idempotent. -/
theorem digitUnderscore_idem (l : List Char) :
    digitUnderscore (digitUnderscore l) = digitUnderscore l := by
  unfold digitUnderscore
  cases l with
  | nil => rfl
  | cons d t =>
    by_cases hd : isDigitChar d = true
    · simp [hd]
      decide
    · simp [hd]

/-- dropTrailingDashes preserves the head of whatever it leaves. -/
theorem dropTrailing_head : ∀ (l : List Char) (c : Char) (t : List Char),
    dropTrailingDashes l = c :: t → ∃ u, l = c :: u := by
  intro l c t h
  obtain ⟨u, hu⟩ := dropTrailing_append l
  exact ⟨t ++ u, by rw [← hu, h]; simp⟩

/-- The head surviving stripDashes is not a dash. -/
theorem strip_head_ne : ∀ (l : List Char) (c : Char) (t : List Char),
    stripDashes l = c :: t → ¬c = '-' := by
  intro l c t h
  unfold stripDashes at h
  obtain ⟨u, hu⟩ := dropTrailing_head _ c t h
  have := head_dropWhile_false (fun x => decide (x = '-')) l c (by exact u) hu
  simpa using this

/-- A list with a non-dash head and a non-dash last entry is a fixed point
of stripDashes. -/
theorem strip_eq_self : ∀ (l : List Char),
    (∀ c t, l = c :: t → ¬c = '-') → l.getLast? ≠ some '-' → stripDashes l = l := by
  intro l hh hl
  unfold stripDashes
  have hdw : l.dropWhile (fun x => decide (x = '-')) = l := by
    cases l with
    | nil => rfl
    | cons c t =>
      have : ¬c = '-' := hh c t rfl
      rw [List.dropWhile_cons_of_neg (by simpa using this)]
  rw [hdw]
  exact dropTrailing_eq_self l hl

/-- digitUnderscore preserves the last entry of a nonempty list. -/
theorem getLast?_digitUnderscore : ∀ (l : List Char), l ≠ [] →
    (digitUnderscore l).getLast? = l.getLast? := by
  intro l hl
  unfold digitUnderscore
  cases l with
  | nil => exact absurd rfl hl
  | cons d t =>
    by_cases hd : isDigitChar d = true
    · simp only [hd, if_true]
      rw [List.getLast?_cons_cons]
    · simp [hd]

/-- The normalization pipeline fixes its own output (given that NFKD fixes
safe-ASCII strings, as unicodedata's NFKD does). -/
theorem pipeline_fix (nfkd : String → String)
    (hsafe : ∀ t : String, (∀ ch ∈ t.data, isSafeChar ch = true) → nfkd t = t)
    (s : String) :
    normalizePipeline nfkd (String.mk (normalizePipeline nfkd s)) = normalizePipeline nfkd s := by
  have hall : ∀ ch ∈ normalizePipeline nfkd s, isSafeChar ch = true := pipeline_mem_safe nfkd s
  have hnodd : noDD (normalizePipeline nfkd s) = true := by
    unfold normalizePipeline
    exact noDD_digitUnderscore (noDD_strip (noDD_collapse _))
  have hhead : ∀ ch t, normalizePipeline nfkd s = ch :: t → ¬ch = '-' := by
    intro ch t h
    unfold normalizePipeline at h
    rcases he : stripDashes (collapseDashes (replaceUnsafe (asciiIgnore (nfkd s).data)))
      with _ | ⟨d, t4⟩
    · rw [he] at h; simp [digitUnderscore] at h
    · rw [he] at h
      unfold digitUnderscore at h
      by_cases hd : isDigitChar d = true
      · simp only [hd, if_true] at h
        cases h
        decide
      · simp only [hd, Bool.false_eq_true, if_false] at h
        have h1 : d = ch := ((List.cons.injEq d t4 ch t).mp h).1
        subst h1
        exact strip_head_ne _ _ _ he
  have hlast : (normalizePipeline nfkd s).getLast? ≠ some '-' := by
    unfold normalizePipeline
    rcases he : stripDashes (collapseDashes (replaceUnsafe (asciiIgnore (nfkd s).data)))
      with _ | ⟨d, t4⟩
    · simp [digitUnderscore]
    · rw [getLast?_digitUnderscore _ (by simp)]
      rw [← he]
      unfold stripDashes
      exact dropTrailing_getLast_ne _
  have hidem : digitUnderscore (normalizePipeline nfkd s) = normalizePipeline nfkd s := by
    unfold normalizePipeline
    exact digitUnderscore_idem _
  generalize hgen : normalizePipeline nfkd s = c at hall hnodd hhead hlast hidem ⊢
  have hnf : nfkd (String.mk c) = String.mk c := hsafe _ (by intro ch hch; exact hall ch hch)
  unfold normalizePipeline
  rw [hnf]
  show digitUnderscore (stripDashes (collapseDashes (replaceUnsafe (asciiIgnore c)))) = c
  rw [asciiIgnore_eq_self c hall, replaceUnsafe_eq_self c hall, collapse_eq_self c hnodd,
    strip_eq_self c hhead hlast]
  exact hidem

/-- C8.  The label normalizer is idempotent: whenever css_class_string
succeeds, applying it to its own output returns that output unchanged.  The
nfkd parameter stands for unicodedata's NFKD normalization and is assumed
to fix strings of the safe output characters [_a-zA-Z0-9-], which holds of
the real NFKD on that ASCII subset. -/
theorem c8_normalizer_idempotent (nfkd : String → String)
    (hsafe : ∀ t : String, (∀ ch ∈ t.data, isSafeChar ch = true) → nfkd t = t)
    (s r : String) (h : css_class_string nfkd s = some r) :
    css_class_string nfkd r = some r := by
  unfold css_class_string at h
  split at h
  · exact absurd h (by simp)
  · split at h
    · next hm =>
      have hr : r = String.mk (normalizePipeline nfkd s) := (Option.some_inj.mp h).symm
      subst hr
      have hall := pipeline_mem_safe nfkd s
      have hfix := pipeline_fix nfkd hsafe s
      have hguard : ((String.mk (normalizePipeline nfkd s)).data.isEmpty ||
          (String.mk (normalizePipeline nfkd s)).data.all pyIsSpace) = false := by
        show ((normalizePipeline nfkd s).isEmpty || (normalizePipeline nfkd s).all pyIsSpace)
          = false
        rcases hc : normalizePipeline nfkd s with _ | ⟨d, t⟩
        · rw [hc] at hm; simp [matchesCssIdent] at hm
        · have hd : isSafeChar d = true := hall d (by rw [hc]; exact List.mem_cons_self d t)
          simp [safe_not_space hd]
      unfold css_class_string
      split
      · next hg =>
        rw [hguard] at hg
        exact absurd hg (by simp)
      · split
        · next hm2 =>
          show some (String.mk (normalizePipeline nfkd (String.mk (normalizePipeline nfkd s))))
            = some (String.mk (normalizePipeline nfkd s))
          rw [hfix]
        · next hm2 =>
          rw [hfix] at hm2
          exact absurd hm hm2
    · exact absurd h (by simp)

/-- C8 witness: the normalizer maps "Foo Bar" to "Foo-Bar", and running it
again on "Foo-Bar" returns "Foo-Bar" unchanged. -/
theorem c8_normalizer_idempotent_witness :
    css_class_string id "Foo-Bar" = some "Foo-Bar" :=
  c8_normalizer_idempotent id (fun _ _ => rfl) "Foo Bar" "Foo-Bar" (by decide)

/-- C9.  css_class_string fails (raises, modelled by none) on every
whitespace-only or empty input and whenever the normalized result fails the
CSS-identifier pattern check; on every successful input the returned string
matches that pattern. -/
theorem c9_invalid_label_conditions (nfkd : String → String) (s : String) :
    (s.data.all pyIsSpace = true → css_class_string nfkd s = none) ∧
      (matchesCssIdent (normalizePipeline nfkd s) = false → css_class_string nfkd s = none) ∧
      (∀ r, css_class_string nfkd s = some r → matchesCssIdent r.data = true) := by
  refine ⟨?_, ?_, ?_⟩
  · intro h
    unfold css_class_string
    rw [if_pos]
    rw [h]
    simp
  · intro h
    unfold css_class_string
    split
    · rfl
    · simp [h]
  · intro r h
    unfold css_class_string at h
    split at h
    · exact absurd h (by simp)
    · split at h
      · next hm =>
        have hr : r = String.mk (normalizePipeline nfkd s) := (Option.some_inj.mp h).symm
        subst hr
        exact hm
      · exact absurd h (by simp)

/-- Slicing the whole text: text[0:len(text)] is the text itself. -/
theorem pySlice_zero_len (l : List Char) : pySlice l 0 (l.length : ℤ) = l := by
  unfold pySlice
  have h0 : ¬((0 : ℤ) < 0) := by omega
  have hlen : ¬((l.length : ℤ) < 0) := by
    have := Int.natCast_nonneg l.length
    omega
  have hmin : (0 : ℤ) ⊓ (l.length : ℤ) = 0 := min_eq_left (Int.natCast_nonneg l.length)
  simp [h0, hlen, hmin]

/-- C10.  Rendering any text with an empty standoff list succeeds: the
height resolver returns the sentinel -1, the generated CSS is just the
base (and optional legend) styles with no per-height and no per-type
blocks, and the body is exactly the input text, preceded by the empty
legend shell when the legend is requested. -/
theorem c10_empty_render (E : Ext) (text : String) (legend : Bool) (g : ℕ) :
    resolve_heights [] = -1 ∧
      generate_css E (-1) [] legend =
        String.intercalate "\n" ((if legend then [LEGEND_CSS] else []) ++ [BASE_CSS]) ∧
      _standoff_to_html E text [] legend g =
        some (generate_css E (-1) [] legend,
          (if legend then "<div class=\"legend\">Legend<table></table></div>" else "")
            ++ text) := by
  refine ⟨rfl, ?_, ?_⟩
  · unfold generate_css
    norm_num
  · cases legend with
    | false =>
      have h1 : renderPipeline E text [] false g =
          some (generate_css E (-1) [] false,
            String.mk (pySlice text.data 0 (text.data.length : ℤ)),
            [FinalItem.txt (pySlice text.data 0 (text.data.length : ℤ))]) := rfl
      unfold _standoff_to_html
      rw [h1, pySlice_zero_len]
      rfl
    | true =>
      have h1 : renderPipeline E text [] true g =
          some (generate_css E (-1) [] true,
            "<div class=\"legend\">Legend<table></table></div>"
              ++ String.mk (pySlice text.data 0 (text.data.length : ℤ)),
            [FinalItem.txt (pySlice text.data 0 (text.data.length : ℤ))]) := rfl
      unfold _standoff_to_html
      rw [h1, pySlice_zero_len]
      rfl

end SO2HTML




